import Mathlib

/-!
Verification of the Bayesian shot-analytics pipeline
(`src/bayesian_model.py`, `src/data_pull.py`, `src/convert_posterior_to_json.py`).

Counts are embedded as naturals, percentages and Beta parameters as rationals.
`scipy.stats.beta.ppf` is modelled as an abstract function returning
`Option ℚ` — `none` stands for a NaN / non-convergent evaluation, `some q`
for a finite result.
-/

/-- The type of the inverse-Beta-CDF routine as the code uses it:
`stats.beta.ppf(q, a, b)`; `none` models a NaN / failed evaluation. -/
def PpfFun : Type := ℚ → ℚ → ℚ → Option ℚ

/-- `CREDIBLE_INTERVAL = 0.95` (bayesian_model.py line 20). -/
def CREDIBLE_INTERVAL : ℚ := 95 / 100

/-- `alpha_level = (1 - C) / 2` (bayesian_model.py line 35). -/
def alphaLevel (c : ℚ) : ℚ := (1 - c) / 2

/-- Result tuple of `compute_posterior` (bayesian_model.py lines 26-39). -/
structure PosteriorCore where
  postAlpha : ℚ
  postBeta : ℚ
  postMean : ℚ
  ciLower : Option ℚ
  ciUpper : Option ℚ
deriving DecidableEq

/-- `compute_posterior` (bayesian_model.py lines 26-39), with the
inverse-CDF routine passed explicitly. -/
def compute_posterior (ppf : PpfFun)
    (player_makes player_attempts prior_alpha prior_beta : ℚ) : PosteriorCore :=
  let posterior_alpha := prior_alpha + player_makes
  let posterior_beta := prior_beta + (player_attempts - player_makes)
  let posterior_mean := posterior_alpha / (posterior_alpha + posterior_beta)
  let alpha_level := alphaLevel CREDIBLE_INTERVAL
  { postAlpha := posterior_alpha
    postBeta := posterior_beta
    postMean := posterior_mean
    ciLower := ppf alpha_level posterior_alpha posterior_beta
    ciUpper := ppf (1 - alpha_level) posterior_alpha posterior_beta }

/-- `compute_shrinkage` (bayesian_model.py lines 42-43). -/
def compute_shrinkage (raw_pct posterior_mean : ℚ) : ℚ := raw_pct - posterior_mean

/-- A ppf that always fails; used only to instantiate universally
quantified statements at a concrete routine. -/
def ppfNone : PpfFun := fun _ _ _ => none

/-- C1: `compute_posterior` returns `posterior_alpha = prior_alpha + makes`,
`posterior_beta = prior_beta + (attempts - makes)`,
`posterior_mean = posterior_alpha / (posterior_alpha + posterior_beta)`;
`compute_shrinkage` returns `raw_pct - posterior_mean`; and for
`0 ≤ makes ≤ attempts` and positive prior parameters both posterior
parameters are strictly positive. -/
theorem compute_posterior_update_and_positive (ppf : PpfFun)
    (makes attempts pa pb : ℚ)
    (h0 : 0 ≤ makes) (h1 : makes ≤ attempts) (ha : 0 < pa) (hb : 0 < pb) :
    (compute_posterior ppf makes attempts pa pb).postAlpha = pa + makes ∧
    (compute_posterior ppf makes attempts pa pb).postBeta
      = pb + (attempts - makes) ∧
    (compute_posterior ppf makes attempts pa pb).postMean
      = (compute_posterior ppf makes attempts pa pb).postAlpha
        / ((compute_posterior ppf makes attempts pa pb).postAlpha
            + (compute_posterior ppf makes attempts pa pb).postBeta) ∧
    (∀ raw : ℚ, compute_shrinkage raw
        (compute_posterior ppf makes attempts pa pb).postMean
      = raw - (compute_posterior ppf makes attempts pa pb).postMean) ∧
    0 < (compute_posterior ppf makes attempts pa pb).postAlpha ∧
    0 < (compute_posterior ppf makes attempts pa pb).postBeta := by
  refine ⟨rfl, rfl, rfl, fun _ => rfl, ?_, ?_⟩
  · show 0 < pa + makes
    linarith
  · show 0 < pb + (attempts - makes)
    linarith

/-- Witness for C1, at Scenario A of the spec: prior (450, 550),
player 9 of 10. -/
theorem compute_posterior_update_and_positive_witness :
    (compute_posterior ppfNone 9 10 450 550).postAlpha = 450 + 9 ∧
    (compute_posterior ppfNone 9 10 450 550).postBeta = 550 + (10 - 9) ∧
    (compute_posterior ppfNone 9 10 450 550).postMean
      = (compute_posterior ppfNone 9 10 450 550).postAlpha
        / ((compute_posterior ppfNone 9 10 450 550).postAlpha
            + (compute_posterior ppfNone 9 10 450 550).postBeta) ∧
    (∀ raw : ℚ, compute_shrinkage raw
        (compute_posterior ppfNone 9 10 450 550).postMean
      = raw - (compute_posterior ppfNone 9 10 450 550).postMean) ∧
    0 < (compute_posterior ppfNone 9 10 450 550).postAlpha ∧
    0 < (compute_posterior ppfNone 9 10 450 550).postBeta :=
  compute_posterior_update_and_positive ppfNone 9 10 450 550
    (by norm_num) (by norm_num) (by norm_num) (by norm_num)

/-- C2: the credible-interval bounds are the inverse Beta CDF of the
posterior distribution at quantiles `(1-C)/2` and `1-(1-C)/2`, where
`C = CREDIBLE_INTERVAL` has value `0.95`. -/
theorem compute_posterior_ci_bounds (ppf : PpfFun)
    (makes attempts pa pb : ℚ) :
    (compute_posterior ppf makes attempts pa pb).ciLower
      = ppf (alphaLevel CREDIBLE_INTERVAL)
          (compute_posterior ppf makes attempts pa pb).postAlpha
          (compute_posterior ppf makes attempts pa pb).postBeta ∧
    (compute_posterior ppf makes attempts pa pb).ciUpper
      = ppf (1 - alphaLevel CREDIBLE_INTERVAL)
          (compute_posterior ppf makes attempts pa pb).postAlpha
          (compute_posterior ppf makes attempts pa pb).postBeta ∧
    alphaLevel CREDIBLE_INTERVAL = (1 - CREDIBLE_INTERVAL) / 2 ∧
    CREDIBLE_INTERVAL = 95 / 100 :=
  ⟨rfl, rfl, rfl, rfl⟩

/-!
### Position mapping (`data_pull.py` lines 83-99)

A raw roster position is either missing (`none`, i.e. pandas NaN) or a
string.
-/

/-- Python `str.upper()` on the character sequence (positions are ASCII). -/
def pyUpper (l : List Char) : List Char := l.map Char.toUpper

/-- Python `str.strip()`: remove leading and trailing whitespace. -/
def pyStrip (l : List Char) : List Char :=
  ((l.dropWhile Char.isWhitespace).reverse.dropWhile Char.isWhitespace).reverse

/-- `str(pos).upper().strip()` (data_pull.py line 87). -/
def normPos (s : String) : List Char := pyStrip (pyUpper s.data)

/-- `map_position` (data_pull.py lines 83-99). -/
def map_position (pos : Option String) : String :=
  match pos with
  | none => "Unknown"
  | some s =>
    let p := normPos s
    if p.contains 'G' then "Guard"
    else if p = ['C'] then "Center"
    else if p.contains 'F' || p.contains 'C' then "Forward"
    else "Unknown"

/-- C10: `map_position` always returns one of the four class labels;
a missing value maps to "Unknown"; any string whose uppercased, stripped
form contains 'G' maps to "Guard" regardless of other letters; only the
exact normalized string "C" maps to "Center"; the hybrids "F-C" and
"C-F" map to "Forward". -/
theorem map_position_classification :
    (∀ pos : Option String,
        map_position pos = "Guard" ∨ map_position pos = "Center" ∨
        map_position pos = "Forward" ∨ map_position pos = "Unknown") ∧
    map_position none = "Unknown" ∧
    (∀ s : String, (normPos s).contains 'G' = true →
        map_position (some s) = "Guard") ∧
    (∀ s : String, map_position (some s) = "Center" →
        normPos s = ['C']) ∧
    map_position (some "F-C") = "Forward" ∧
    map_position (some "C-F") = "Forward" := by
  refine ⟨?_, rfl, ?_, ?_, by decide, by decide⟩
  · intro pos
    cases pos with
    | none => simp [map_position]
    | some s =>
      simp only [map_position]
      split
      · exact Or.inl rfl
      · split
        · exact Or.inr (Or.inl rfl)
        · split
          · exact Or.inr (Or.inr (Or.inl rfl))
          · exact Or.inr (Or.inr (Or.inr rfl))
  · intro s h
    have h' : 'G' ∈ normPos s := by simpa using h
    simp [map_position, h']
  · intro s h
    revert h
    simp only [map_position]
    split
    · intro h; exact absurd h (by decide)
    · split
      · intro _; assumption
      · split
        · intro h; exact absurd h (by decide)
        · intro h; exact absurd h (by decide)

/-- Witness for C10: "SG" normalizes to a string containing 'G'. -/
theorem map_position_classification_witness :
    map_position (some "SG") = "Guard" :=
  map_position_classification.2.2.1 "SG" (by decide)

/-!
### JSON conversion (`convert_posterior_to_json.py` lines 21-30)

A Python value in a posterior record is modelled by `PyVal`: a NaN float
(native or numpy — `pd.isna` is true on it), Python `None`, a numpy
numeric scalar (a library wrapper carrying a finite value, exposing
`.item()`), a plain native number, or a string.
-/

inductive PyVal where
  | napy : PyVal
  | pyNone : PyVal
  | numpyNum : ℚ → PyVal
  | pyNum : ℚ → PyVal
  | pyStr : String → PyVal
deriving DecidableEq

/-- `pd.isna` on the value universe. -/
def pd_isna : PyVal → Bool
  | .napy => true
  | .pyNone => true
  | _ => false

/-- `hasattr(value, 'item')`: true exactly on numpy scalar wrappers. -/
def hasItemAttr : PyVal → Bool
  | .numpyNum _ => true
  | _ => false

/-- `value.item()`: unwrap a numpy scalar to the native number. -/
def itemOf : PyVal → PyVal
  | .numpyNum q => .pyNum q
  | v => v

/-- The per-value body of the cleaning loop
(convert_posterior_to_json.py lines 26-30). -/
def cleanValue (v : PyVal) : PyVal :=
  if pd_isna v then .pyNone
  else if hasItemAttr v then itemOf v
  else v

/-- `convert_to_json`'s record-cleaning pass
(convert_posterior_to_json.py lines 21-30): `df.to_dict('records')` is an
array of key-value records; each value is cleaned in place. -/
def convert_to_json (records : List (List (String × PyVal))) :
    List (List (String × PyVal)) :=
  records.map (fun rec => rec.map (fun kv => (kv.1, cleanValue kv.2)))

/-- C9: in the record-oriented output every missing/NaN value has become
the explicit null `pyNone`, no value is a numpy scalar wrapper, and a
finite numpy scalar is unwrapped to the plain native number with the
same value. -/
theorem convert_to_json_plain_values (records : List (List (String × PyVal))) :
    (∀ rec ∈ convert_to_json records, ∀ kv ∈ rec,
        kv.2 ≠ PyVal.napy ∧ hasItemAttr kv.2 = false) ∧
    (∀ v : PyVal, pd_isna v = true → cleanValue v = PyVal.pyNone) ∧
    (∀ q : ℚ, cleanValue (PyVal.numpyNum q) = PyVal.pyNum q) := by
  refine ⟨?_, ?_, ?_⟩
  · intro rec hrec kv hkv
    simp only [convert_to_json, List.mem_map] at hrec
    obtain ⟨rec0, _, rfl⟩ := hrec
    simp only [List.mem_map] at hkv
    obtain ⟨kv0, _, rfl⟩ := hkv
    cases kv0.2 <;> simp [cleanValue, pd_isna, hasItemAttr, itemOf]
  · intro v hv
    cases v <;> simp_all [cleanValue, pd_isna]
  · intro q
    simp [cleanValue, pd_isna, hasItemAttr, itemOf]

/-- Witness for C9 on a concrete record set: a NaN, a numpy-wrapped
number and a string. -/
theorem convert_to_json_plain_values_witness :
    (∀ rec ∈ convert_to_json
        [[("a", PyVal.napy), ("b", PyVal.numpyNum (1/2)), ("c", PyVal.pyStr "x")]],
      ∀ kv ∈ rec, kv.2 ≠ PyVal.napy ∧ hasItemAttr kv.2 = false) ∧
    cleanValue PyVal.napy = PyVal.pyNone ∧
    cleanValue (PyVal.numpyNum (1/2)) = PyVal.pyNum (1/2) :=
  ⟨(convert_to_json_plain_values _).1,
   (convert_to_json_plain_values
      ([] : List (List (String × PyVal)))).2.1 PyVal.napy (by decide),
   (convert_to_json_plain_values ([] : List (List (String × PyVal)))).2.2 (1/2)⟩

/-!
### Aggregation of shots (`data_pull.py` lines 285-368)

A shot row carries the columns the aggregations use: `PLAYER_ID`,
`PLAYER_NAME`, `POSITION`, `SHOT_ZONE_BASIC`, `SHOT_MADE_FLAG`.
A pandas `groupby` over a list of rows is embedded as: the list of
distinct keys (first-seen order), each mapped to the aggregate of the
rows carrying that key.
-/

structure Shot where
  playerId : ℕ
  playerName : String
  position : String
  zone : String
  made : Bool
deriving DecidableEq

structure PlayerStat where
  playerId : ℕ
  playerName : String
  position : String
  zone : String
  makes : ℕ
  attempts : ℕ
  rawFgPct : ℚ
deriving DecidableEq

structure Prior where
  position : String
  zone : String
  makes : ℕ
  attempts : ℕ
  fgPct : ℚ
  alpha : ℤ
  beta : ℤ
deriving DecidableEq

/-- Grouping key of `compute_player_stats` (data_pull.py line 339). -/
def playerKey (s : Shot) : ℕ × String × String × String :=
  (s.playerId, s.playerName, s.position, s.zone)

/-- Grouping key of `compute_position_priors` (data_pull.py line 296). -/
def zoneKey (s : Shot) : String × String := (s.position, s.zone)

/-- `'SHOT_MADE_FLAG': 'sum'` on a group. -/
def makesOf (grp : List Shot) : ℕ := (grp.filter (fun s => s.made)).length

/-- `MIN_ATTEMPTS = 5` (data_pull.py line 348). -/
def MIN_ATTEMPTS : ℕ := 5

/-- One aggregated row of `compute_player_stats` (sum / count / mean). -/
def mkPlayerStat (k : ℕ × String × String × String) (grp : List Shot) :
    PlayerStat :=
  { playerId := k.1, playerName := k.2.1, position := k.2.2.1, zone := k.2.2.2
    makes := makesOf grp, attempts := grp.length
    rawFgPct := (makesOf grp : ℚ) / (grp.length : ℚ) }

/-- `compute_player_stats` (data_pull.py lines 331-349): group by
(player, name, position, zone), aggregate, then keep rows with
`attempts >= MIN_ATTEMPTS`. -/
def compute_player_stats (shots : List Shot) : List PlayerStat :=
  (((shots.map playerKey).dedup).map
      (fun k => mkPlayerStat k
        (shots.filter (fun s => decide (playerKey s = k))))).filter
    (fun r => decide (MIN_ATTEMPTS ≤ r.attempts))

/-- `df_known` (data_pull.py line 293): shots whose position is not
"Unknown". -/
def knownShots (shots : List Shot) : List Shot :=
  shots.filter (fun s => decide (s.position ≠ "Unknown"))

/-- One aggregated row of `compute_position_priors`, with
`alpha = makes`, `beta = attempts - makes` (data_pull.py lines 304-305). -/
def mkPrior (k : String × String) (grp : List Shot) : Prior :=
  { position := k.1, zone := k.2
    makes := makesOf grp, attempts := grp.length
    fgPct := (makesOf grp : ℚ) / (grp.length : ℚ)
    alpha := (makesOf grp : ℤ)
    beta := (grp.length : ℤ) - (makesOf grp : ℤ) }

/-- `compute_position_priors` (data_pull.py lines 285-326): exclude
Unknown positions, group by (position, zone), aggregate. -/
def compute_position_priors (shots : List Shot) : List Prior :=
  (((knownShots shots).map zoneKey).dedup).map
    (fun k => mkPrior k
      ((knownShots shots).filter (fun s => decide (zoneKey s = k))))

/-- A key in a deduplicated key column comes from some row. -/
theorem mem_dedup_map {α β : Type} [DecidableEq β] {l : List α} {f : α → β}
    {k : β} (h : k ∈ (l.map f).dedup) : ∃ s ∈ l, f s = k := by
  rw [List.mem_dedup] at h
  exact List.mem_map.mp h

/-- C5: every row of `compute_player_stats` has
`attempts >= MIN_ATTEMPTS` (= 5) and `makes <= attempts`, and a
(player, name, position, zone) combination with fewer shots than the
threshold yields no output row at all. -/
theorem compute_player_stats_threshold (shots : List Shot) :
    (∀ r ∈ compute_player_stats shots,
        MIN_ATTEMPTS ≤ r.attempts ∧ r.makes ≤ r.attempts) ∧
    (∀ k : ℕ × String × String × String,
        (shots.filter (fun s => decide (playerKey s = k))).length
          < MIN_ATTEMPTS →
        ∀ r ∈ compute_player_stats shots,
          (r.playerId, r.playerName, r.position, r.zone) ≠ k) := by
  constructor
  · intro r hr
    rw [compute_player_stats, List.mem_filter] at hr
    obtain ⟨hmem, hth⟩ := hr
    rw [decide_eq_true_eq] at hth
    refine ⟨hth, ?_⟩
    rw [List.mem_map] at hmem
    obtain ⟨k, _, rfl⟩ := hmem
    exact List.length_filter_le _ _
  · intro k hk r hr hkey
    rw [compute_player_stats, List.mem_filter] at hr
    obtain ⟨hmem, hth⟩ := hr
    rw [decide_eq_true_eq] at hth
    rw [List.mem_map] at hmem
    obtain ⟨k', _, rfl⟩ := hmem
    obtain ⟨a, b, c, d⟩ := k'
    have hkk : (a, b, c, d) = k := hkey
    rw [hkk] at hth
    have : (shots.filter (fun s => decide (playerKey s = k))).length
        < (shots.filter (fun s => decide (playerKey s = k))).length := by
      calc (shots.filter (fun s => decide (playerKey s = k))).length
          < MIN_ATTEMPTS := hk
        _ ≤ _ := hth
    exact absurd this (lt_irrefl _)

/-- A small concrete shot log: one Guard with five paint shots (three
made), one Unknown-position player with a single shot. -/
def shotsCx : List Shot :=
  [⟨1, "A", "Guard", "Paint", true⟩, ⟨1, "A", "Guard", "Paint", true⟩,
   ⟨1, "A", "Guard", "Paint", true⟩, ⟨1, "A", "Guard", "Paint", false⟩,
   ⟨1, "A", "Guard", "Paint", false⟩, ⟨2, "B", "Unknown", "Paint", true⟩]

/-- The aggregate row `compute_player_stats shotsCx` produces. -/
def statCx : PlayerStat := ⟨1, "A", "Guard", "Paint", 3, 5, 3/5⟩

/-- Witness for C5 on `shotsCx`: the Guard row passes the threshold,
the single-shot key is absent. -/
theorem compute_player_stats_threshold_witness :
    (MIN_ATTEMPTS ≤ statCx.attempts ∧ statCx.makes ≤ statCx.attempts) ∧
    (statCx.playerId, statCx.playerName, statCx.position, statCx.zone)
      ≠ (2, "B", "Unknown", "Paint") :=
  ⟨(compute_player_stats_threshold shotsCx).1 statCx
     (by rw [show compute_player_stats shotsCx = [statCx] from rfl]
         exact List.mem_singleton_self _),
   (compute_player_stats_threshold shotsCx).2 (2, "B", "Unknown", "Paint")
     (by decide) statCx
     (by rw [show compute_player_stats shotsCx = [statCx] from rfl]
         exact List.mem_singleton_self _)⟩

/-- C6: no row of `compute_position_priors` carries the unclassified
position "Unknown". -/
theorem compute_position_priors_no_unknown (shots : List Shot) :
    ∀ r ∈ compute_position_priors shots, r.position ≠ "Unknown" := by
  intro r hr
  rw [compute_position_priors, List.mem_map] at hr
  obtain ⟨k, hk, rfl⟩ := hr
  obtain ⟨s, hs, hks⟩ := mem_dedup_map hk
  rw [knownShots, List.mem_filter, decide_eq_true_eq] at hs
  subst hks
  simpa [mkPrior, zoneKey] using hs.2

/-- The prior row `compute_position_priors shotsCx` produces. -/
def priorCx : Prior := ⟨"Guard", "Paint", 3, 5, 3/5, 3, 2⟩

/-- Witness for C6 on `shotsCx`. -/
theorem compute_position_priors_no_unknown_witness :
    priorCx.position ≠ "Unknown" :=
  compute_position_priors_no_unknown shotsCx priorCx
    (by rw [show compute_position_priors shotsCx = [priorCx] from rfl]
        exact List.mem_singleton_self _)

/-- C7: every prior row has `alpha >= 0`, `beta >= 0`,
`alpha + beta = attempts` and `attempts > 0`; in particular no
zero-attempt (alpha = 0 and beta = 0) row is emitted. -/
theorem compute_position_priors_params (shots : List Shot) :
    ∀ r ∈ compute_position_priors shots,
      0 ≤ r.alpha ∧ 0 ≤ r.beta ∧ r.alpha + r.beta = (r.attempts : ℤ) ∧
      0 < r.attempts := by
  intro r hr
  rw [compute_position_priors, List.mem_map] at hr
  obtain ⟨k, hk, rfl⟩ := hr
  obtain ⟨s, hs, hks⟩ := mem_dedup_map hk
  have hmem : s ∈ (knownShots shots).filter
      (fun t => decide (zoneKey t = k)) :=
    List.mem_filter.mpr ⟨hs, by simp [hks]⟩
  have hlen : 0 < ((knownShots shots).filter
      (fun t => decide (zoneKey t = k))).length :=
    List.length_pos.mpr (List.ne_nil_of_mem hmem)
  have hle : makesOf ((knownShots shots).filter
      (fun t => decide (zoneKey t = k)))
      ≤ ((knownShots shots).filter (fun t => decide (zoneKey t = k))).length :=
    List.length_filter_le _ _
  refine ⟨?_, ?_, ?_, ?_⟩
  · simp [mkPrior]
  · simp only [mkPrior]
    omega
  · simp only [mkPrior]
    ring
  · simpa [mkPrior] using hlen

/-- Witness for C7 on `shotsCx`. -/
theorem compute_position_priors_params_witness :
    0 ≤ priorCx.alpha ∧ 0 ≤ priorCx.beta ∧
    priorCx.alpha + priorCx.beta = (priorCx.attempts : ℤ) ∧
    0 < priorCx.attempts :=
  compute_position_priors_params shotsCx priorCx
    (by rw [show compute_position_priors shotsCx = [priorCx] from rfl]
        exact List.mem_singleton_self _)

/-!
### Merge of player stats with priors (`bayesian_model.py` lines 66-82)

`player_stats.merge(priors, on=['position','zone'], how='left')` followed
by `dropna(subset=['alpha','beta'])`: each stat row is paired with every
prior carrying its key (`none` when there is no match, the pandas NaN
row), the NaN rows are counted as the missing-prior diagnostic and then
dropped.
-/

/-- Join key of a prior row. -/
def pKey (p : Prior) : String × String := (p.position, p.zone)

/-- Join key of a player-stat row. -/
def sKey (s : PlayerStat) : String × String := (s.position, s.zone)

/-- The left merge (bayesian_model.py lines 66-72). -/
def leftJoin (priors : List Prior) (stats : List PlayerStat) :
    List (PlayerStat × Option Prior) :=
  stats.flatMap (fun s =>
    let ms := priors.filter (fun p => decide (pKey p = sKey s))
    if ms.isEmpty then [(s, none)] else ms.map (fun p => (s, some p)))

/-- `missing = merged['alpha'].isna().sum()` (bayesian_model.py line 75). -/
def missingCount (priors : List Prior) (stats : List PlayerStat) : ℕ :=
  ((leftJoin priors stats).filter (fun r => r.2.isNone)).length

/-- `merged.dropna(subset=['alpha','beta'])` (bayesian_model.py line 80):
the joined pairs that reach the posterior loop. -/
def mergedRows (priors : List Prior) (stats : List PlayerStat) :
    List (PlayerStat × Prior) :=
  (leftJoin priors stats).filterMap (fun r => r.2.map (fun p => (r.1, p)))

/-- A stat row has a matching prior. -/
def hasMatch (priors : List Prior) (s : PlayerStat) : Bool :=
  !(priors.filter (fun p => decide (pKey p = sKey s))).isEmpty

theorem hasMatch_iff (priors : List Prior) (s : PlayerStat) :
    hasMatch priors s = true ↔ ∃ p ∈ priors, pKey p = sKey s := by
  rw [hasMatch, Bool.not_eq_true']
  constructor
  · intro h
    have hne : priors.filter (fun p => decide (pKey p = sKey s)) ≠ [] := by
      intro hnil
      rw [hnil] at h
      exact absurd h (by decide)
    obtain ⟨p, hp⟩ := List.exists_mem_of_ne_nil _ hne
    rw [List.mem_filter, decide_eq_true_eq] at hp
    exact ⟨p, hp.1, hp.2⟩
  · intro ⟨p, hp, hpk⟩
    have : p ∈ priors.filter (fun q => decide (pKey q = sKey s)) :=
      List.mem_filter.mpr ⟨hp, by simp [hpk]⟩
    cases hfil : priors.filter (fun q => decide (pKey q = sKey s)) with
    | nil => rw [hfil] at this; exact absurd this (List.not_mem_nil p)
    | cons a l => rfl

theorem mergedRows_eq (priors : List Prior) (stats : List PlayerStat) :
    mergedRows priors stats
      = stats.flatMap (fun s =>
          (priors.filter (fun p => decide (pKey p = sKey s))).map
            (fun p => (s, p))) := by
  induction stats with
  | nil => rfl
  | cons s t ih =>
    rw [mergedRows, leftJoin] at *
    rw [List.flatMap_cons, List.flatMap_cons, List.filterMap_append, ih]
    congr 1
    by_cases h : (priors.filter (fun p => decide (pKey p = sKey s))).isEmpty
    · rw [if_pos h, List.isEmpty_iff.mp h]
      rfl
    · rw [if_neg h]
      generalize priors.filter (fun p => decide (pKey p = sKey s)) = ms
      induction ms with
      | nil => rfl
      | cons m mt ihm => simp [List.filterMap_cons, ihm]

theorem filter_key_length_le_one (priors : List Prior)
    (h : (priors.map pKey).Nodup) (k : String × String) :
    (priors.filter (fun p => decide (pKey p = k))).length ≤ 1 := by
  induction priors with
  | nil => simp
  | cons p ps ih =>
    rw [List.map_cons, List.nodup_cons] at h
    by_cases hp : pKey p = k
    · have hnil : ps.filter (fun q => decide (pKey q = k)) = [] := by
        rw [List.filter_eq_nil_iff]
        intro q hq
        simp only [decide_eq_true_eq]
        intro hqk
        exact h.1 (hp ▸ hqk ▸ List.mem_map_of_mem pKey hq)
      simp [List.filter_cons, hp, hnil]
    · simp only [List.filter_cons, decide_eq_true_eq, if_neg hp]
      exact ih h.2

theorem filter_key_length_eq_one (priors : List Prior)
    (h : (priors.map pKey).Nodup) (k : String × String)
    (hex : ∃ p ∈ priors, pKey p = k) :
    (priors.filter (fun p => decide (pKey p = k))).length = 1 := by
  obtain ⟨p, hp, hpk⟩ := hex
  have hmem : p ∈ priors.filter (fun q => decide (pKey q = k)) :=
    List.mem_filter.mpr ⟨hp, by simp [hpk]⟩
  have hpos : 0 < (priors.filter (fun q => decide (pKey q = k))).length :=
    List.length_pos.mpr (List.ne_nil_of_mem hmem)
  have hle := filter_key_length_le_one priors h k
  omega

theorem missingCount_eq (priors : List Prior) (stats : List PlayerStat) :
    missingCount priors stats
      = (stats.filter (fun s => !(hasMatch priors s))).length := by
  induction stats with
  | nil => rfl
  | cons s t ih =>
    rw [missingCount, leftJoin, List.flatMap_cons, List.filter_append,
      List.length_append]
    rw [missingCount, leftJoin] at ih
    rw [ih, List.filter_cons]
    by_cases h : (priors.filter (fun p => decide (pKey p = sKey s))).isEmpty
    · have hm : hasMatch priors s = false := by
        rw [hasMatch, h]
        rfl
      simp only [if_pos h, hm]
      simp [List.filter_cons, Nat.add_comm]
    · have hm : hasMatch priors s = true := by
        rw [hasMatch, Bool.not_eq_true'] at *
        exact Bool.not_eq_true _ ▸ (by simpa using h)
      simp only [if_neg h, hm]
      have hz : ((priors.filter (fun p => decide (pKey p = sKey s))).map
          (fun p => (s, some p))).filter (fun r => r.2.isNone) = [] := by
        generalize priors.filter (fun p => decide (pKey p = sKey s)) = ms
        induction ms with
        | nil => rfl
        | cons m mt ihm => simp [List.filter_cons, ihm]
      rw [hz]
      simp

/-- C4: with uniquely keyed priors, each stat row with an exactly
matching prior appears exactly once in the joined output (once per
occurrence, and exactly once if the stat rows are distinct), each stat
row with no matching prior is absent, and the missing-prior diagnostic
counts exactly the unmatched rows. -/
theorem merge_resolver_join (priors : List Prior) (stats : List PlayerStat)
    (hkeys : (priors.map pKey).Nodup) :
    ((mergedRows priors stats).map Prod.fst
        = stats.filter (fun s => hasMatch priors s)) ∧
    (missingCount priors stats
        = (stats.filter (fun s => !(hasMatch priors s))).length) ∧
    (∀ s ∈ stats, hasMatch priors s = false →
        s ∉ (mergedRows priors stats).map Prod.fst) ∧
    (stats.Nodup → ∀ s ∈ stats, hasMatch priors s = true →
        ((mergedRows priors stats).map Prod.fst).count s = 1) := by
  have hone : ∀ s : PlayerStat,
      (priors.filter (fun p => decide (pKey p = sKey s))).map
          (fun _ => s)
        = if hasMatch priors s = true then [s] else [] := by
    intro s
    by_cases hm : hasMatch priors s = true
    · rw [if_pos hm]
      have hlen : (priors.filter (fun p => decide (pKey p = sKey s))).length
          = 1 :=
        filter_key_length_eq_one priors hkeys (sKey s)
          ((hasMatch_iff priors s).mp hm)
      obtain ⟨x, hx⟩ := List.length_eq_one.mp hlen
      rw [hx]
      rfl
    · rw [if_neg hm]
      rw [hasMatch, Bool.not_eq_true'] at hm
      have : (priors.filter (fun p => decide (pKey p = sKey s))).isEmpty
          = true := by
        revert hm
        cases (priors.filter (fun p => decide (pKey p = sKey s))).isEmpty <;>
          simp
      rw [List.isEmpty_iff.mp this]
      rfl
  have hfst : (mergedRows priors stats).map Prod.fst
      = stats.filter (fun s => hasMatch priors s) := by
    rw [mergedRows_eq, List.map_flatMap]
    have : ∀ s : PlayerStat,
        ((priors.filter (fun p => decide (pKey p = sKey s))).map
            (fun p => (s, p))).map Prod.fst
          = (priors.filter (fun p => decide (pKey p = sKey s))).map
              (fun _ => s) := by
      intro s
      rw [List.map_map]
      rfl
    induction stats with
    | nil => rfl
    | cons s t ih =>
      rw [List.flatMap_cons, List.filter_cons, ih, this, hone]
      by_cases hm : hasMatch priors s = true
      · rw [if_pos hm, if_pos hm]
        rfl
      · rw [if_neg hm, if_neg (by simpa using hm)]
        rfl
  refine ⟨hfst, missingCount_eq priors stats, ?_, ?_⟩
  · intro s _ hm hmem
    rw [hfst, List.mem_filter] at hmem
    rw [hm] at hmem
    exact absurd hmem.2 (by decide)
  · intro hnd s hs hm
    rw [hfst, List.count_filter hm]
    exact List.count_eq_one_of_mem hnd hs

/-- A stat row whose (position, zone) has no prior in `[priorCx]`. -/
def statNoMatch : PlayerStat := ⟨3, "D", "Guard", "Mid", 4, 8, 1/2⟩

/-- Witness for C4 on a concrete merge: one matching row, one
unmatched row. -/
theorem merge_resolver_join_witness :
    ((mergedRows [priorCx] [statCx, statNoMatch]).map Prod.fst).count statCx
      = 1 ∧
    statNoMatch ∉ (mergedRows [priorCx] [statCx, statNoMatch]).map Prod.fst ∧
    missingCount [priorCx] [statCx, statNoMatch]
      = ([statCx, statNoMatch].filter
          (fun s => !(hasMatch [priorCx] s))).length :=
  ⟨(merge_resolver_join [priorCx] [statCx, statNoMatch] (by decide)).2.2.2
      (by decide) statCx (List.mem_cons_self _ _) (by decide),
   (merge_resolver_join [priorCx] [statCx, statNoMatch] (by decide)).2.2.1
      statNoMatch (List.mem_cons_of_mem _ (List.mem_cons_self _ _))
      (by decide),
   (merge_resolver_join [priorCx] [statCx, statNoMatch] (by decide)).2.1⟩

/-!
### The posterior loop (`bayesian_model.py` lines 86-116)

Each merged (stat, prior) pair yields one output record,
unconditionally: the loop has no retry, no convergence check and no
exclusion path.
-/

structure PosteriorRecord where
  playerId : ℕ
  playerName : String
  position : String
  zone : String
  attempts : ℕ
  makes : ℕ
  rawFgPct : ℚ
  priorFgPct : ℚ
  posteriorMean : ℚ
  ciLower : Option ℚ
  ciUpper : Option ℚ
  ciWidth : Option ℚ
  shrinkage : ℚ
  priorAlpha : ℚ
  priorBeta : ℚ
  posteriorAlpha : ℚ
  posteriorBeta : ℚ
deriving DecidableEq

/-- Subtraction on possibly-NaN values: NaN propagates
(`ci_high - ci_low`, bayesian_model.py line 108). -/
def optSub : Option ℚ → Option ℚ → Option ℚ
  | some a, some b => some (a - b)
  | _, _ => none

/-- The record appended per merged row (bayesian_model.py lines 88-114). -/
def mkPosteriorRecord (ppf : PpfFun) (sp : PlayerStat × Prior) :
    PosteriorRecord :=
  let s := sp.1
  let p := sp.2
  let core := compute_posterior ppf (s.makes : ℚ) (s.attempts : ℚ)
    (p.alpha : ℚ) (p.beta : ℚ)
  { playerId := s.playerId, playerName := s.playerName
    position := s.position, zone := s.zone
    attempts := s.attempts, makes := s.makes
    rawFgPct := s.rawFgPct, priorFgPct := p.fgPct
    posteriorMean := core.postMean
    ciLower := core.ciLower, ciUpper := core.ciUpper
    ciWidth := optSub core.ciUpper core.ciLower
    shrinkage := compute_shrinkage s.rawFgPct core.postMean
    priorAlpha := (p.alpha : ℚ), priorBeta := (p.beta : ℚ)
    posteriorAlpha := core.postAlpha, posteriorBeta := core.postBeta }

/-- `compute_all_posteriors` (bayesian_model.py lines 49-120): merge,
drop unmatched rows, then map each merged pair to a record. -/
def compute_all_posteriors (ppf : PpfFun) (priors : List Prior)
    (stats : List PlayerStat) : List PosteriorRecord :=
  (mergedRows priors stats).map (mkPosteriorRecord ppf)

/-- C8 (amended): the loop performs no retry and no numeric-failure
exclusion — for every inverse-CDF routine the output has exactly one
record per merged row, and each record's interval fields are the raw
single evaluation of the routine (so a failed evaluation is emitted
as an undefined interval, not excluded). -/
theorem compute_all_posteriors_no_retry_no_exclusion (ppf : PpfFun)
    (priors : List Prior) (stats : List PlayerStat) :
    (compute_all_posteriors ppf priors stats).length
      = (mergedRows priors stats).length ∧
    ∀ r ∈ compute_all_posteriors ppf priors stats,
      r.ciLower = ppf (alphaLevel CREDIBLE_INTERVAL)
        r.posteriorAlpha r.posteriorBeta ∧
      r.ciUpper = ppf (1 - alphaLevel CREDIBLE_INTERVAL)
        r.posteriorAlpha r.posteriorBeta ∧
      r.ciWidth = optSub r.ciUpper r.ciLower := by
  refine ⟨List.length_map _ _, ?_⟩
  intro r hr
  rw [compute_all_posteriors, List.mem_map] at hr
  obtain ⟨sp, _, rfl⟩ := hr
  exact ⟨rfl, rfl, rfl⟩

/-- Witness for C8's amended statement at a concrete failing routine. -/
theorem compute_all_posteriors_no_retry_no_exclusion_witness :
    (compute_all_posteriors ppfNone [priorCx] [statCx]).length
      = (mergedRows [priorCx] [statCx]).length ∧
    (mkPosteriorRecord ppfNone (statCx, priorCx)).ciLower
      = ppfNone (alphaLevel CREDIBLE_INTERVAL)
          (mkPosteriorRecord ppfNone (statCx, priorCx)).posteriorAlpha
          (mkPosteriorRecord ppfNone (statCx, priorCx)).posteriorBeta :=
  ⟨(compute_all_posteriors_no_retry_no_exclusion ppfNone
      [priorCx] [statCx]).1,
   ((compute_all_posteriors_no_retry_no_exclusion ppfNone
      [priorCx] [statCx]).2 (mkPosteriorRecord ppfNone (statCx, priorCx))
      (by rw [show compute_all_posteriors ppfNone [priorCx] [statCx]
              = [mkPosteriorRecord ppfNone (statCx, priorCx)] from rfl]
          exact List.mem_singleton_self _)).1⟩

/-- C8 counterexample: with a routine whose evaluation fails on this
row, the row is NOT excluded — exactly one record is emitted and its
credible-interval fields are undefined (`none`, the NaN of the model). -/
theorem compute_all_posteriors_nan_emitted :
    (compute_all_posteriors ppfNone [priorCx] [statCx]).length = 1 ∧
    (compute_all_posteriors ppfNone [priorCx] [statCx]).map
        (fun r => (r.ciLower, r.ciUpper, r.ciWidth))
      = [(none, none, none)] :=
  ⟨rfl, rfl⟩

/-!
### The inverse Beta CDF (claim C3)

For integer shapes `a ≥ 1`, `b ≥ 1` the Beta(a, b) CDF at `x ∈ [0,1]`
equals the binomial tail `P(Bin(a+b-1, x) ≥ a)` (the standard identity
for the regularized incomplete Beta function at integer parameters).
`binomTail n a x` is that tail probability, by the recursion on one
more Bernoulli trial.
-/

def binomTail : ℕ → ℕ → ℚ → ℚ
  | _, 0, _ => 1
  | 0, _ + 1, _ => 0
  | n + 1, a + 1, x =>
    x * binomTail n a x + (1 - x) * binomTail n (a + 1) x

theorem binomTail_nonneg :
    ∀ n a : ℕ, ∀ x : ℚ, 0 ≤ x → x ≤ 1 → 0 ≤ binomTail n a x := by
  intro n
  induction n with
  | zero =>
    intro a x hx hx1
    cases a with
    | zero => simp [binomTail]
    | succ a => simp [binomTail]
  | succ n ih =>
    intro a x hx hx1
    cases a with
    | zero => simp [binomTail]
    | succ a =>
      simp only [binomTail]
      have t1 : 0 ≤ x * binomTail n a x := mul_nonneg hx (ih a x hx hx1)
      have t2 : 0 ≤ (1 - x) * binomTail n (a + 1) x :=
        mul_nonneg (by linarith) (ih (a + 1) x hx hx1)
      linarith

theorem binomTail_le_one :
    ∀ n a : ℕ, ∀ x : ℚ, 0 ≤ x → x ≤ 1 → binomTail n a x ≤ 1 := by
  intro n
  induction n with
  | zero =>
    intro a x hx hx1
    cases a with
    | zero => simp [binomTail]
    | succ a => simp [binomTail]
  | succ n ih =>
    intro a x hx hx1
    cases a with
    | zero => simp [binomTail]
    | succ a =>
      simp only [binomTail]
      have t1 : x * binomTail n a x ≤ x * 1 :=
        mul_le_mul_of_nonneg_left (ih a x hx hx1) hx
      have t2 : (1 - x) * binomTail n (a + 1) x ≤ (1 - x) * 1 :=
        mul_le_mul_of_nonneg_left (ih (a + 1) x hx hx1) (by linarith)
      linarith

theorem binomTail_anti :
    ∀ n a : ℕ, ∀ x : ℚ, 0 ≤ x → x ≤ 1 →
      binomTail n (a + 1) x ≤ binomTail n a x := by
  intro n
  induction n with
  | zero =>
    intro a x hx hx1
    cases a with
    | zero => simp [binomTail]
    | succ a => simp [binomTail]
  | succ n ih =>
    intro a x hx hx1
    cases a with
    | zero =>
      simp only [binomTail]
      have h2 : (1 - x) * binomTail n (0 + 1) x ≤ (1 - x) * 1 :=
        mul_le_mul_of_nonneg_left (binomTail_le_one n (0 + 1) x hx hx1)
          (by linarith)
      linarith
    | succ a =>
      simp only [binomTail]
      have t1 : x * binomTail n (a + 1) x ≤ x * binomTail n a x :=
        mul_le_mul_of_nonneg_left (ih a x hx hx1) hx
      have t2 : (1 - x) * binomTail n (a + 2) x
          ≤ (1 - x) * binomTail n (a + 1) x :=
        mul_le_mul_of_nonneg_left (ih (a + 1) x hx hx1) (by linarith)
      linarith

theorem binomTail_mono :
    ∀ n a : ℕ, ∀ x y : ℚ, 0 ≤ x → x ≤ y → y ≤ 1 →
      binomTail n a x ≤ binomTail n a y := by
  intro n
  induction n with
  | zero =>
    intro a x y hx hxy hy
    cases a with
    | zero => simp [binomTail]
    | succ a => simp [binomTail]
  | succ n ih =>
    intro a x y hx hxy hy
    cases a with
    | zero => simp [binomTail]
    | succ a =>
      simp only [binomTail]
      have hy0 : 0 ≤ y := le_trans hx hxy
      have hx1 : x ≤ 1 := le_trans hxy hy
      have i1 := ih a x y hx hxy hy
      have i2 := ih (a + 1) x y hx hxy hy
      have ha := binomTail_anti n a x hx hx1
      have t1 : 0 ≤ y * (binomTail n a y - binomTail n a x) :=
        mul_nonneg hy0 (by linarith)
      have t2 : 0 ≤ (1 - y) * (binomTail n (a + 1) y
          - binomTail n (a + 1) x) :=
        mul_nonneg (by linarith) (by linarith)
      have t3 : 0 ≤ (y - x) * (binomTail n a x - binomTail n (a + 1) x) :=
        mul_nonneg (by linarith) (by linarith)
      nlinarith [t1, t2, t3]

/-- `IsBetaQuantile a b p q`: `q ∈ [0,1]` and the Beta(a, b) CDF at `q`
equals `p` — the defining property of a converged `stats.beta.ppf(p, a, b)`
value, for integer shapes `a, b ≥ 1`. -/
def IsBetaQuantile (a b : ℕ) (p q : ℚ) : Prop :=
  0 ≤ q ∧ q ≤ 1 ∧ binomTail (a + b - 1) a q = p

/-- C3 (amended): for any confidence level in (0,1) and positive
(integer) posterior parameters, the lower credible quantile — the
inverse CDF at `alphaLevel c` — never exceeds the upper one, i.e.
`ci_width = ci_upper - ci_lower ≥ 0`. -/
theorem ci_width_nonneg (a b : ℕ) (c l u : ℚ)
    (ha : 1 ≤ a) (hb : 1 ≤ b) (hc0 : 0 < c) (hc1 : c < 1)
    (hl : IsBetaQuantile a b (alphaLevel c) l)
    (hu : IsBetaQuantile a b (1 - alphaLevel c) u) :
    0 ≤ u - l := by
  obtain ⟨hl0, hl1, hlS⟩ := hl
  obtain ⟨hu0, hu1, huS⟩ := hu
  by_contra h
  push_neg at h
  have hm : binomTail (a + b - 1) a u ≤ binomTail (a + b - 1) a l :=
    binomTail_mono _ _ u l hu0 (by linarith) hl1
  rw [hlS, huS, alphaLevel] at hm
  linarith

/-- Witness for the amended C3 at Beta(1,1) (uniform), c = 1/2:
quantiles 1/4 and 3/4. -/
theorem ci_width_nonneg_witness :
    IsBetaQuantile 1 1 (alphaLevel (1/2)) (1/4) ∧
    IsBetaQuantile 1 1 (1 - alphaLevel (1/2)) (3/4) ∧
    0 ≤ (3:ℚ)/4 - 1/4 :=
  ⟨by norm_num [IsBetaQuantile, binomTail, alphaLevel],
   by norm_num [IsBetaQuantile, binomTail, alphaLevel],
   ci_width_nonneg 1 1 (1/2) (1/4) (3/4) le_rfl le_rfl (by norm_num)
     (by norm_num)
     (by norm_num [IsBetaQuantile, binomTail, alphaLevel])
     (by norm_num [IsBetaQuantile, binomTail, alphaLevel])⟩

/-- C3 counterexample: a posterior with parameters (1, 2) — produced by
`compute_posterior` from prior (1, 1) and a 0-for-1 sample — and
confidence level 1/50 ∈ (0,1).  The upper credible bound, the true
Beta(1,2) quantile at `1 - alphaLevel (1/50)`, is 3/10, strictly below
the posterior mean 1/3: `ci_lower ≤ posterior_mean ≤ ci_upper` fails. -/
theorem ci_mean_bound_fails :
    IsBetaQuantile 1 2 (1 - alphaLevel (1/50)) (3/10) ∧
    0 < (1:ℚ)/50 ∧ (1:ℚ)/50 < 1 ∧
    (compute_posterior ppfNone 0 1 1 1).postAlpha = 1 ∧
    (compute_posterior ppfNone 0 1 1 1).postBeta = 2 ∧
    ¬((compute_posterior ppfNone 0 1 1 1).postMean ≤ 3/10) := by
  refine ⟨?_, by norm_num, by norm_num, ?_, ?_, ?_⟩
  · norm_num [IsBetaQuantile, binomTail, alphaLevel]
  · norm_num [compute_posterior]
  · norm_num [compute_posterior]
  · norm_num [compute_posterior]
